import Mathlib

/-!
Shallow embedding of the Gemini API key manager
(`src/workers-api/src/geminiKeyManager.ts`) and proofs about the claims of
the specification.  Timestamps are modelled as natural numbers (milliseconds
since the epoch, `new Date(0)` being `0`).  The mutable `keyMetrics` map is
modelled as a total function `String → KeyMetrics`; the `keys` list records
the credential list, so membership in the map corresponds to membership in
`keys`.  JavaScript `Date.now()` is made explicit: every operation that reads
the clock takes a `now : Nat` argument, and `executeWithRetry` takes a
`clock : Nat → Nat` giving the time at which each attempt runs (`clock 0` is
the entry time; no awaits run when the loop body never executes, so the final
availability check of a zero-attempt run happens at the entry time as well).
-/

namespace GKM

/-- Per-credential metrics, mirroring the `KeyMetrics` interface. -/
structure KeyMetrics where
  key : String
  usageCount : Nat
  lastUsed : Nat
  isBlocked : Bool
  blockUntil : Option Nat
  errorCount : Nat
deriving DecidableEq, Repr

/-- The mutable state of a `GeminiKeyManager` instance. -/
structure ManagerState where
  keys : List String
  metrics : String → KeyMetrics
  currentIndex : Nat

/-- `ApiError` from `types.ts`: message, HTTP status code, optional code. -/
structure ApiError where
  message : String
  statusCode : Nat
  code : Option String
deriving DecidableEq, Repr

def maxRetries : Nat := 3

def blockDurationMs : Nat := 60000

def maxErrorsBeforeBlock : Nat := 5

/-- Initial metrics of a key (`initializeKeys`): zeroed counters,
`lastUsed = new Date(0)`, not blocked. -/
def initMetrics (k : String) : KeyMetrics :=
  { key := k, usageCount := 0, lastUsed := 0, isBlocked := false
    blockUntil := none, errorCount := 0 }

/-- A freshly initialized manager over the given credential list. -/
def freshState (keys : List String) : ManagerState :=
  { keys := keys, metrics := fun k => initMetrics k, currentIndex := 0 }

/-- Point update of the metrics map (`this.keyMetrics.get(k)` mutation). -/
def setMetric (s : ManagerState) (k : String) (m : KeyMetrics) : ManagerState :=
  { s with metrics := fun j => if j = k then m else s.metrics j }

/-- One key's step of the `getAvailableKeys` filter callback: decides whether
the key is kept and performs the lazy unblock of an expired block. -/
def availStep (now : Nat) (m : KeyMetrics) : Bool × KeyMetrics :=
  if m.isBlocked then
    match m.blockUntil with
    | some bu =>
      if now < bu then (false, m)
      else (true, { m with isBlocked := false, blockUntil := none, errorCount := 0 })
    | none => (true, m)
  else (true, m)

/-- The `keys.filter` loop of `getAvailableKeys`, threading the in-place
mutations of the metrics map through the traversal. -/
def availGo (now : Nat) : List String → (String → KeyMetrics) →
    List String × (String → KeyMetrics)
  | [], m => ([], m)
  | k :: ks, m =>
    let r := availStep now (m k)
    let m' := fun j => if j = k then r.2 else m j
    let rest := availGo now ks m'
    (if r.1 then k :: rest.1 else rest.1, rest.2)

/-- `getAvailableKeys`: returns the currently available keys and the state
after the lazy-unblock pass. -/
def getAvailableKeys (s : ManagerState) (now : Nat) : List String × ManagerState :=
  let r := availGo now s.keys s.metrics
  (r.1, { s with metrics := r.2 })

/-- The `ApiError` thrown by `getNextKey` when no key is available. -/
def selectExhaustedError : ApiError :=
  { message := "All Gemini API keys are currently rate-limited or blocked. Please try again later."
    statusCode := 429, code := some "ALL_KEYS_EXHAUSTED" }

/-- `getNextKey`: round-robin selection over the currently available keys,
advancing the cursor and updating the selected key's usage metrics. -/
def getNextKey (s : ManagerState) (now : Nat) : Except ApiError String × ManagerState :=
  let r := getAvailableKeys s now
  let availableKeys := r.1
  let s1 := r.2
  if availableKeys.length = 0 then (.error selectExhaustedError, s1)
  else
    let selectedKey := availableKeys.getD (s1.currentIndex % availableKeys.length) ""
    let s2 := { s1 with currentIndex := (s1.currentIndex + 1) % availableKeys.length }
    let m := s2.metrics selectedKey
    (.ok selectedKey,
      setMetric s2 selectedKey { m with usageCount := m.usageCount + 1, lastUsed := now })

/-- `markKeyAsRateLimited`: block the key for `blockDurationMs` and increment
its error count. -/
def markKeyAsRateLimited (s : ManagerState) (k : String) (now : Nat) : ManagerState :=
  if k ∈ s.keys then
    let m := s.metrics k
    setMetric s k
      { m with isBlocked := true, blockUntil := some (now + blockDurationMs)
               errorCount := m.errorCount + 1 }
  else s

/-- `markKeyError`: increment the error count and block the key for twice
`blockDurationMs` once the count reaches `maxErrorsBeforeBlock`. -/
def markKeyError (s : ManagerState) (k : String) (now : Nat) : ManagerState :=
  if k ∈ s.keys then
    let m := s.metrics k
    let m1 := { m with errorCount := m.errorCount + 1 }
    if maxErrorsBeforeBlock ≤ m1.errorCount then
      setMetric s k
        { m1 with isBlocked := true, blockUntil := some (now + blockDurationMs * 2) }
    else setMetric s k m1
  else s

/-- `markKeySuccess`: reset the key's error count (and nothing else). -/
def markKeySuccess (s : ManagerState) (k : String) : ManagerState :=
  if k ∈ s.keys then
    let m := s.metrics k
    setMetric s k { m with errorCount := 0 }
  else s

/-- `needle` matches at the head of the list. -/
def matchesAt : List Char → List Char → Bool
  | [], _ => true
  | _ :: _, [] => false
  | a :: as, b :: bs => a == b && matchesAt as bs

/-- Substring occurrence test (JavaScript `String.prototype.includes`). -/
def containsSub (needle : List Char) : List Char → Bool
  | [] => matchesAt needle []
  | c :: cs => matchesAt needle (c :: cs) || containsSub needle cs

/-- Character-wise lowercasing of a string (JavaScript `toLowerCase`). -/
def lowerData (s : String) : List Char := s.data.map Char.toLower

/-- `isRateLimitError`: substring heuristic over the lowercased message. -/
def isRateLimitError (msg : String) : Bool :=
  let errorMessage := lowerData msg
  containsSub "429".data errorMessage ||
  containsSub "rate limit".data errorMessage ||
  containsSub "quota".data errorMessage ||
  containsSub "too many requests".data errorMessage

/-- `getLastUsedKey`: scan the metrics map (insertion order) for the first key
whose `lastUsed` strictly exceeds the running maximum (initially `Date(0)`). -/
def getLastUsedKey (s : ManagerState) : Option String :=
  (s.keys.foldl
    (fun acc k =>
      if (s.metrics k).lastUsed > acc.2 then (some k, (s.metrics k).lastUsed) else acc)
    ((none : Option String), 0)).1

/-- `maskKey`: `***` for short keys, otherwise first 8 and last 4 characters. -/
def maskKey (key : String) : String :=
  if key.length ≤ 12 then "***"
  else String.mk (key.data.take 8) ++ "..." ++ String.mk (key.data.drop (key.length - 4))

/-- The `catch` block of `executeWithRetry`: classify the failure message and
record it against the last used key. -/
def catchHandle (s : ManagerState) (msg : String) (now : Nat) : ManagerState :=
  if isRateLimitError msg then
    match getLastUsedKey s with
    | some failedKey => markKeyAsRateLimited s failedKey now
    | none => s
  else
    match getLastUsedKey s with
    | some failedKey => markKeyError s failedKey now
    | none => s

/-- Outcome of one iteration of the retry loop's `try`/`catch` body.
`workInvoked` is a ghost observable recording whether the caller-supplied
work function actually ran during the iteration. -/
structure AttemptOut (T : Type) where
  result : Except String T
  workInvoked : Bool
  state : ManagerState

/-- One iteration of the `executeWithRetry` loop body: select a key (whose
failure is caught like any other error), invoke the work, and record the
outcome. -/
def attemptStep {T : Type} (w : String → Except String T) (s : ManagerState)
    (now : Nat) : AttemptOut T :=
  let r := getNextKey s now
  match r.1 with
  | .error e => ⟨.error e.message, false, catchHandle r.2 e.message now⟩
  | .ok apiKey =>
    match w apiKey with
    | .ok v => ⟨.ok v, true, markKeySuccess r.2 apiKey⟩
    | .error msg => ⟨.error msg, true, catchHandle r.2 msg now⟩

/-- Result of the retry loop: the successful value if any, the state, the
`attemptsCount` of the source (failed attempts), the ghost count of work
invocations, and the last error message. -/
structure LoopOut (T : Type) where
  success : Option T
  state : ManagerState
  attemptsCount : Nat
  workCalls : Nat
  lastError : Option String

/-- The `for attempt = 1..maxAttempts` loop of `executeWithRetry`.
`remaining` counts the iterations still allowed (`remaining = 0` at entry of
an iteration means the previous one was the last attempt). -/
def retryGo {T : Type} (work : Nat → String → Except String T) (clock : Nat → Nat) :
    Nat → Nat → Nat → Nat → Option String → ManagerState → LoopOut T
  | 0, _, ac, wc, le, s => ⟨none, s, ac, wc, le⟩
  | r + 1, attempt, ac, wc, le, s =>
    match attemptStep (work attempt) s (clock attempt) with
    | ⟨.ok v, wi, s'⟩ => ⟨some v, s', ac, if wi then wc + 1 else wc, le⟩
    | ⟨.error msg, wi, s'⟩ =>
      if r = 0 then ⟨none, s', ac + 1, if wi then wc + 1 else wc, some msg⟩
      else retryGo work clock r (attempt + 1) (ac + 1) (if wi then wc + 1 else wc)
        (some msg) s'

/-- The `ApiError` thrown when all attempts failed and no key is available. -/
def exhaustedError : ApiError :=
  { message := "All Gemini API keys exhausted", statusCode := 429
    code := some "ALL_KEYS_EXHAUSTED" }

/-- Result of `executeWithRetry`, with the ghost `workCalls` observable. -/
structure RetryOutcome (T : Type) where
  result : Except ApiError T
  state : ManagerState
  attemptsCount : Nat
  workCalls : Nat

/-- `executeWithRetry`: cap the attempts at
`min(maxRetries, availableKeys.length)` computed at entry, run the retry
loop, and wrap the final failure.  The work function receives the attempt
number (so that attempt-dependent behaviours can be modelled) and the key.
`clock n` is the wall-clock time of attempt `n`; `clock 0` is the entry time,
and the final availability check runs at `clock maxAttempts` (equal to the
entry time when the loop never executed, since nothing awaits in between). -/
def executeWithRetry {T : Type} (work : Nat → String → Except String T)
    (operation : String) (clock : Nat → Nat) (s : ManagerState) : RetryOutcome T :=
  let e := getAvailableKeys s (clock 0)
  let maxAttempts := min maxRetries e.1.length
  let g := retryGo work clock maxAttempts 1 0 0 none e.2
  match g.success with
  | some v => ⟨.ok v, g.state, g.attemptsCount, g.workCalls⟩
  | none =>
    let f := getAvailableKeys g.state (clock maxAttempts)
    if f.1.length = 0 then ⟨.error exhaustedError, f.2, g.attemptsCount, g.workCalls⟩
    else
      let lastMsg := match g.lastError with
        | some m => if m = "" then "Unknown error" else m
        | none => "Unknown error"
      ⟨.error
        { message := operation ++ " failed after " ++ toString g.attemptsCount ++
            " attempts: " ++ lastMsg
          statusCode := 500, code := some "API_CALL_FAILED" }, f.2,
        g.attemptsCount, g.workCalls⟩

/-- One entry of `getStatus().keyStats` (the ISO-formatted `lastUsed` string
is modelled by the underlying timestamp). -/
structure KeyStat where
  key : String
  usageCount : Nat
  lastUsed : Nat
  isBlocked : Bool
  errorCount : Nat
deriving DecidableEq, Repr

/-- The record returned by `getStatus`. -/
structure StatusReport where
  totalKeys : Nat
  availableKeys : Nat
  blockedKeys : Nat
  keyStats : List KeyStat
deriving DecidableEq, Repr

/-- `getStatus`: aggregate counts plus masked per-key stats.  It calls
`getAvailableKeys`, so the returned state carries that call's lazy-unblock
side effects. -/
def getStatus (s : ManagerState) (now : Nat) : StatusReport × ManagerState :=
  let r := getAvailableKeys s now
  let availableKeys := r.1
  let s1 := r.2
  let keyStats := s1.keys.map (fun k =>
    let m := s1.metrics k
    ({ key := maskKey k, usageCount := m.usageCount, lastUsed := m.lastUsed
       isBlocked := m.isBlocked, errorCount := m.errorCount } : KeyStat))
  ({ totalKeys := s1.keys.length, availableKeys := availableKeys.length
     blockedKeys := s1.keys.length - availableKeys.length, keyStats := keyStats }, s1)

/-- The environment record consulted by `initializeKeys`: the
`GEMINI_API_KEYS` variable and the legacy `GEMINI_API_KEY`/`GEMINI_API_KEY1`..
variables, indexed by their numeric suffix (`0` standing for no suffix). -/
structure Env where
  geminiApiKeys : Option String
  legacyKey : Nat → Option String

/-- `initializeKeys`: parse the comma-separated key list, falling back to the
legacy individual variables; empty strings are falsy in JavaScript, so an
empty `GEMINI_API_KEYS` also falls back and empty legacy entries are skipped.
Fails when no key is found. -/
def initializeKeys (env : Option Env) : Except String (List String) :=
  let keysFromEnv : Option String :=
    match env with
    | none => none
    | some e =>
      match e.geminiApiKeys with
      | none => none
      | some v => if v = "" then none else some v
  let keys : List String :=
    match keysFromEnv with
    | none =>
      (List.range 13).filterMap (fun i =>
        match env with
        | none => none
        | some e =>
          match e.legacyKey i with
          | none => none
          | some k => if k = "" then none else some k)
    | some v => ((v.splitOn ",").map String.trim).filter (fun k => k.length > 0)
  if keys.length = 0 then .error "🚨 No Gemini API keys found in environment variables"
  else .ok keys

/-- The `GeminiKeyManager` constructor (metrics initialization included). -/
def newGeminiKeyManager (env : Option Env) : Except String ManagerState :=
  (initializeKeys env).map freshState

/-- `getGeminiKeyManager`: the module-level lazy singleton.  The first
argument models the `geminiKeyManagerInstance` cell; the result pairs the
returned instance with the new content of the cell. -/
def getGeminiKeyManager (cell : Option ManagerState) (env : Option Env) :
    Except String (ManagerState × Option ManagerState) :=
  match cell with
  | some inst => .ok (inst, some inst)
  | none =>
    match newGeminiKeyManager env with
    | .ok m => .ok (m, some m)
    | .error msg => .error msg

/-! Auxiliary definitions used to state the claims. -/

/-- A one-credential pool whose only credential is blocked far into the
future. -/
def blockedPoolEx : ManagerState where
  keys := ["k1"]
  metrics := fun k =>
    { key := k, usageCount := 0, lastUsed := 5, isBlocked := true
      blockUntil := some 999999, errorCount := 3 }
  currentIndex := 0

/-- A state is availability-stable at time `now` when the lazy-unblock pass of
`getAvailableKeys` would not modify any credential's metrics (no blocked
credential's `blockUntil` has passed). -/
def AvailStable (s : ManagerState) (now : Nat) : Prop :=
  ∀ k ∈ s.keys, (availStep now (s.metrics k)).2 = s.metrics k

instance (s : ManagerState) (now : Nat) : Decidable (AvailStable s now) :=
  inferInstanceAs (Decidable (∀ k ∈ s.keys, (availStep now (s.metrics k)).2 = s.metrics k))

/-- The list of keys `getAvailableKeys` returns, as a pure filter (this equals
the returned list whenever the state is availability-stable). -/
def availList (s : ManagerState) (now : Nat) : List String :=
  s.keys.filter (fun k => (availStep now (s.metrics k)).1)

/-- The key `getNextKey` selects from an availability-stable state. -/
def nextKeySel (s : ManagerState) (now : Nat) : String :=
  (availList s now).getD (s.currentIndex % (availList s now).length) ""

/-- The state `getNextKey` leaves behind from an availability-stable state:
cursor advanced, selected key's usage metrics updated. -/
def nextKeyState (s : ManagerState) (now : Nat) : ManagerState :=
  let sel := nextKeySel s now
  let s2 := { s with currentIndex := (s.currentIndex + 1) % (availList s now).length }
  setMetric s2 sel
    { s2.metrics sel with usageCount := (s2.metrics sel).usageCount + 1, lastUsed := now }

/-- `M` sequential `getNextKey` calls at a fixed time, collecting the selected
keys (stopping on exhaustion). -/
def iterateNextKey : ManagerState → Nat → Nat → List String × ManagerState
  | s, _, 0 => ([], s)
  | s, now, n + 1 =>
    match getNextKey s now with
    | (.error _, s') => ([], s')
    | (.ok k, s') =>
      let r := iterateNextKey s' now n
      (k :: r.1, r.2)

/-- The pure round-robin selection sequence: `M` picks over list `A` starting
from cursor `c`. -/
def rrSel (A : List String) (c M : Nat) : List String :=
  (List.range M).map (fun i => A.getD ((c + i) % A.length) "")

/-- How many `i < M` satisfy `(c + i) % N = j`. -/
def hitCount (c j N M : Nat) : Nat :=
  (List.range M).countP (fun i => (c + i) % N == j)

/-- Ceiling division on naturals. -/
def ceilDivNat (M N : Nat) : Nat := (M + N - 1) / N

/-- A sequence of `getAvailableKeys` calls at the given times, collecting the
returned lists. -/
def queryChain : ManagerState → List Nat → List (List String) × ManagerState
  | s, [] => ([], s)
  | s, t :: ts =>
    let r := getAvailableKeys s t
    let rest := queryChain r.2 ts
    (r.1 :: rest.1, rest.2)

/-- Case-insensitive substring containment, as the spec words it. -/
def ciContains (pat msg : String) : Bool :=
  containsSub (lowerData pat) (lowerData msg)

/-- A state whose credential `k2` is blocked with an expired block: used to
exhibit the lazy-unblock side effect of `getStatus`. -/
def statusMutEx : ManagerState where
  keys := ["k1", "k2"]
  metrics := fun k =>
    if k = "k2" then
      { key := k, usageCount := 1, lastUsed := 10, isBlocked := true
        blockUntil := some 50, errorCount := 3 }
    else initMetrics k
  currentIndex := 0

/-- A state whose credential `k2` is blocked with an expired block: used to
exhibit that an attempt touches the metrics of a non-selected credential. -/
def attemptFrameEx : ManagerState where
  keys := ["k1", "k2"]
  metrics := fun k =>
    if k = "k2" then
      { key := k, usageCount := 4, lastUsed := 20, isBlocked := true
        blockUntil := some 50, errorCount := 2 }
    else initMetrics k
  currentIndex := 0

/-! Basic lemmas about the availability pass. -/

theorem availStep_false {now : Nat} {m : KeyMetrics} (h : (availStep now m).1 = false) :
    (availStep now m).2 = m := by
  unfold availStep at *
  rcases m with ⟨k, uc, lu, b, bu, ec⟩
  cases b <;> simp_all
  cases bu with
  | none => simp_all
  | some v =>
    by_cases hv : now < v <;> simp_all

theorem availStep_idem (now : Nat) (m : KeyMetrics) :
    availStep now (availStep now m).2 = ((availStep now m).1, (availStep now m).2) := by
  unfold availStep
  rcases m with ⟨k, uc, lu, b, bu, ec⟩
  cases b
  · simp
  · cases bu with
    | none => simp
    | some v =>
      by_cases hv : now < v <;> simp [hv]

theorem availStep_keep_congr {now : Nat} {m m' : KeyMetrics}
    (h1 : m'.isBlocked = m.isBlocked) (h2 : m'.blockUntil = m.blockUntil) :
    (availStep now m').1 = (availStep now m).1 := by
  rcases m with ⟨k, uc, lu, b, bu, ec⟩
  rcases m' with ⟨k', uc', lu', b', bu', ec'⟩
  simp only at h1 h2
  subst h1
  subst h2
  cases b'
  · simp [availStep]
  · cases bu' with
    | none => simp [availStep]
    | some v => by_cases hv : now < v <;> simp [availStep, hv]

theorem availStep_fix_congr {now : Nat} {m m' : KeyMetrics}
    (hm : (availStep now m).2 = m)
    (h1 : m'.isBlocked = m.isBlocked) (h2 : m'.blockUntil = m.blockUntil) :
    (availStep now m').2 = m' := by
  rcases m with ⟨k, uc, lu, b, bu, ec⟩
  rcases m' with ⟨k', uc', lu', b', bu', ec'⟩
  simp only at h1 h2
  subst h1
  subst h2
  cases b'
  · simp [availStep]
  · cases bu' with
    | none => simp [availStep]
    | some v =>
      by_cases hv : now < v
      · simp [availStep, hv]
      · simp [availStep, hv] at hm

theorem availGo_metrics (now : Nat) (ks : List String) (m : String → KeyMetrics)
    (k : String) :
    (availGo now ks m).2 k = if k ∈ ks then (availStep now (m k)).2 else m k := by
  induction ks generalizing m with
  | nil => simp [availGo]
  | cons h t ih =>
    simp only [availGo]
    rw [ih]
    by_cases hk : k = h
    · subst hk
      by_cases hkt : k ∈ t
      · simp [hkt, availStep_idem]
      · simp [hkt]
    · simp [hk, List.mem_cons]

theorem availGo_keep_sublist (now : Nat) (ks : List String) (m : String → KeyMetrics) :
    List.Sublist (availGo now ks m).1 ks := by
  induction ks generalizing m with
  | nil => simp [availGo]
  | cons h t ih =>
    simp only [availGo]
    by_cases hr : (availStep now (m h)).1 <;> simp [hr]
    · exact ih _
    · exact List.Sublist.cons h (ih _)

theorem not_mem_availGo {now : Nat} {k : String} (ks : List String)
    (m : String → KeyMetrics) (hf : (availStep now (m k)).1 = false) :
    k ∉ (availGo now ks m).1 := by
  induction ks generalizing m with
  | nil => simp [availGo]
  | cons h t ih =>
    simp only [availGo]
    by_cases hk : h = k
    · subst hk
      rw [hf]
      simp only [if_neg Bool.false_ne_true]
      have hm : (fun j => if j = h then (availStep now (m h)).2 else m j) h = m h := by
        simp [availStep_false hf]
      apply ih
      simp [availStep_false hf, hf]
    · have hkh : k ≠ h := fun e => hk e.symm
      have hm : (if k = h then (availStep now (m h)).2 else m k) = m k := by
        simp [hkh]
      by_cases hr : (availStep now (m h)).1 <;> simp [hr, List.mem_cons, hk]
      · constructor
        · exact hkh
        · have := ih (fun j => if j = h then (availStep now (m h)).2 else m j)
          simp only [hm] at this
          exact this hf
      · have := ih (fun j => if j = h then (availStep now (m h)).2 else m j)
        simp only [hm] at this
        exact this hf

theorem mem_availGo {now : Nat} {k : String} {ks : List String}
    (m : String → KeyMetrics) (hk : k ∈ ks) (ht : (availStep now (m k)).1 = true) :
    k ∈ (availGo now ks m).1 := by
  induction ks generalizing m with
  | nil => simp at hk
  | cons h t ih =>
    simp only [availGo]
    by_cases hkh : k = h
    · subst hkh
      rw [ht]
      simp
    · have hkt : k ∈ t := by
        rcases List.mem_cons.mp hk with h1 | h1
        · exact absurd h1 hkh
        · exact h1
      have hm : (if k = h then (availStep now (m h)).2 else m k) = m k := by
        simp [hkh]
      have := ih (fun j => if j = h then (availStep now (m h)).2 else m j) hkt
      simp only [hm] at this
      by_cases hr : (availStep now (m h)).1 <;> simp [hr, List.mem_cons]
      · right
        exact this ht
      · exact this ht

theorem availGo_nil (now : Nat) (ks : List String) (m : String → KeyMetrics)
    (h : (availGo now ks m).1 = []) : (availGo now ks m).2 = m := by
  induction ks generalizing m with
  | nil => simp [availGo]
  | cons hd t ih =>
    simp only [availGo] at h ⊢
    by_cases hr : (availStep now (m hd)).1
    · simp [hr] at h
    · simp only [Bool.not_eq_true] at hr
      simp only [hr, Bool.false_eq_true, if_false] at h
      have hfix : (availStep now (m hd)).2 = m hd := availStep_false hr
      have hm : (fun j => if j = hd then (availStep now (m hd)).2 else m j) = m := by
        funext j
        by_cases hj : j = hd <;> simp [hj, hfix]
      rw [hm] at h ⊢
      exact ih m h

/-! Lemmas about `getAvailableKeys` and availability-stable states. -/

theorem getAvailableKeys_keys (s : ManagerState) (now : Nat) :
    (getAvailableKeys s now).2.keys = s.keys := rfl

theorem getAvailableKeys_currentIndex (s : ManagerState) (now : Nat) :
    (getAvailableKeys s now).2.currentIndex = s.currentIndex := rfl

theorem getAvailableKeys_metrics (s : ManagerState) (now : Nat) (k : String) :
    (getAvailableKeys s now).2.metrics k =
      if k ∈ s.keys then (availStep now (s.metrics k)).2 else s.metrics k :=
  availGo_metrics now s.keys s.metrics k

theorem manager_ext {s t : ManagerState} (h1 : s.keys = t.keys)
    (h2 : s.metrics = t.metrics) (h3 : s.currentIndex = t.currentIndex) : s = t := by
  cases s
  cases t
  simp_all

theorem availGo_keys_of_stable (now : Nat) (ks : List String) (m : String → KeyMetrics)
    (h : ∀ k ∈ ks, (availStep now (m k)).2 = m k) :
    (availGo now ks m).1 = ks.filter (fun k => (availStep now (m k)).1) := by
  induction ks generalizing m with
  | nil => simp [availGo]
  | cons hd t ih =>
    simp only [availGo, List.filter_cons]
    have hfix : (availStep now (m hd)).2 = m hd := h hd (List.mem_cons_self hd t)
    have hm : (fun j => if j = hd then (availStep now (m hd)).2 else m j) = m := by
      funext j
      by_cases hj : j = hd <;> simp [hj, hfix]
    rw [hm, ih m (fun k hk => h k (List.mem_cons_of_mem hd hk))]

theorem getAvailableKeys_stable {s : ManagerState} {now : Nat} (h : AvailStable s now) :
    getAvailableKeys s now = (availList s now, s) := by
  have h1 := availGo_keys_of_stable now s.keys s.metrics h
  have h2 : (availGo now s.keys s.metrics).2 = s.metrics := by
    funext k
    rw [availGo_metrics]
    by_cases hk : k ∈ s.keys
    · simp [hk, h k hk]
    · simp [hk]
  unfold getAvailableKeys availList
  rw [Prod.ext_iff]
  exact ⟨h1, manager_ext rfl h2 rfl⟩

theorem availStable_after (s : ManagerState) (now : Nat) :
    AvailStable (getAvailableKeys s now).2 now := by
  intro k hk
  rw [getAvailableKeys_keys] at hk
  rw [getAvailableKeys_metrics, if_pos hk]
  exact congrArg Prod.snd (availStep_idem now (s.metrics k))

theorem availStable_fresh (ks : List String) (now : Nat) :
    AvailStable (freshState ks) now := by
  intro k _
  simp [freshState, initMetrics, availStep]

theorem availList_fresh (ks : List String) (now : Nat) :
    availList (freshState ks) now = ks := by
  simp [availList, freshState, initMetrics, availStep]

theorem availList_subset_keys {s : ManagerState} {now : Nat} {k : String}
    (h : k ∈ availList s now) : k ∈ s.keys :=
  List.mem_of_mem_filter h

theorem availList_nodup {s : ManagerState} (now : Nat) (h : s.keys.Nodup) :
    (availList s now).Nodup :=
  h.filter _

/-! Lemmas about the point updates of the metrics map. -/

theorem setMetric_metrics_self (s : ManagerState) (k : String) (m : KeyMetrics) :
    (setMetric s k m).metrics k = m := by
  simp [setMetric]

theorem setMetric_metrics_ne (s : ManagerState) {j k : String} (m : KeyMetrics)
    (h : j ≠ k) : (setMetric s k m).metrics j = s.metrics j := by
  simp [setMetric, h]

theorem markKeyAsRateLimited_keys (s : ManagerState) (k : String) (now : Nat) :
    (markKeyAsRateLimited s k now).keys = s.keys := by
  unfold markKeyAsRateLimited
  by_cases hk : k ∈ s.keys <;> simp [hk, setMetric]

theorem markKeyAsRateLimited_metrics_self {s : ManagerState} {k : String} (now : Nat)
    (h : k ∈ s.keys) :
    (markKeyAsRateLimited s k now).metrics k =
      { s.metrics k with
        isBlocked := true, blockUntil := some (now + blockDurationMs),
        errorCount := (s.metrics k).errorCount + 1 } := by
  simp [markKeyAsRateLimited, h, setMetric]

theorem markKeyAsRateLimited_metrics_ne {s : ManagerState} {j k : String} (now : Nat)
    (h : j ≠ k) : (markKeyAsRateLimited s k now).metrics j = s.metrics j := by
  unfold markKeyAsRateLimited
  by_cases hk : k ∈ s.keys <;> simp [hk, setMetric, h]

theorem markKeyError_keys (s : ManagerState) (k : String) (now : Nat) :
    (markKeyError s k now).keys = s.keys := by
  unfold markKeyError
  by_cases hk : k ∈ s.keys
  · by_cases hc : maxErrorsBeforeBlock ≤ (s.metrics k).errorCount + 1 <;>
      simp [hk, hc, setMetric]
  · simp [hk]

theorem markKeyError_metrics_self {s : ManagerState} {k : String} (now : Nat)
    (h : k ∈ s.keys) :
    (markKeyError s k now).metrics k =
      if maxErrorsBeforeBlock ≤ (s.metrics k).errorCount + 1 then
        { s.metrics k with
          errorCount := (s.metrics k).errorCount + 1, isBlocked := true,
          blockUntil := some (now + blockDurationMs * 2) }
      else { s.metrics k with errorCount := (s.metrics k).errorCount + 1 } := by
  unfold markKeyError
  by_cases hc : maxErrorsBeforeBlock ≤ (s.metrics k).errorCount + 1 <;>
    simp [h, hc, setMetric]

theorem markKeyError_metrics_ne {s : ManagerState} {j k : String} (now : Nat)
    (h : j ≠ k) : (markKeyError s k now).metrics j = s.metrics j := by
  unfold markKeyError
  by_cases hk : k ∈ s.keys
  · by_cases hc : maxErrorsBeforeBlock ≤ (s.metrics k).errorCount + 1 <;>
      simp [hk, hc, setMetric, h]
  · simp [hk]

theorem markKeySuccess_keys (s : ManagerState) (k : String) :
    (markKeySuccess s k).keys = s.keys := by
  unfold markKeySuccess
  by_cases hk : k ∈ s.keys <;> simp [hk, setMetric]

theorem markKeySuccess_metrics_self {s : ManagerState} {k : String} (h : k ∈ s.keys) :
    (markKeySuccess s k).metrics k = { s.metrics k with errorCount := 0 } := by
  simp [markKeySuccess, h, setMetric]

theorem markKeySuccess_metrics_ne {s : ManagerState} {j k : String} (h : j ≠ k) :
    (markKeySuccess s k).metrics j = s.metrics j := by
  unfold markKeySuccess
  by_cases hk : k ∈ s.keys <;> simp [hk, setMetric, h]

/-! Lemmas about `getNextKey` from an availability-stable state. -/

theorem nextKeySel_mem {s : ManagerState} {now : Nat}
    (hlen : 0 < (availList s now).length) : nextKeySel s now ∈ availList s now := by
  unfold nextKeySel
  have hlt : s.currentIndex % (availList s now).length < (availList s now).length :=
    Nat.mod_lt _ hlen
  rw [List.getD_eq_get _ _ hlt]
  exact List.get_mem _ _ _

theorem nextKeySel_mem_keys {s : ManagerState} {now : Nat}
    (hlen : 0 < (availList s now).length) : nextKeySel s now ∈ s.keys :=
  availList_subset_keys (nextKeySel_mem hlen)

theorem getNextKey_stable {s : ManagerState} {now : Nat} (h : AvailStable s now)
    (hlen : 0 < (availList s now).length) :
    getNextKey s now = (.ok (nextKeySel s now), nextKeyState s now) := by
  unfold getNextKey
  rw [getAvailableKeys_stable h]
  simp only [nextKeySel, nextKeyState]
  rw [if_neg (by omega)]

theorem nextKeyState_keys (s : ManagerState) (now : Nat) :
    (nextKeyState s now).keys = s.keys := rfl

theorem nextKeyState_currentIndex (s : ManagerState) (now : Nat) :
    (nextKeyState s now).currentIndex =
      (s.currentIndex + 1) % (availList s now).length := rfl

theorem nextKeyState_metrics_sel (s : ManagerState) (now : Nat) :
    (nextKeyState s now).metrics (nextKeySel s now) =
      { s.metrics (nextKeySel s now) with
        usageCount := (s.metrics (nextKeySel s now)).usageCount + 1
        lastUsed := now } :=
  setMetric_metrics_self _ _ _

theorem nextKeyState_metrics_ne {s : ManagerState} {now : Nat} {j : String}
    (h : j ≠ nextKeySel s now) : (nextKeyState s now).metrics j = s.metrics j :=
  setMetric_metrics_ne _ _ h

theorem availStable_nextKeyState {s : ManagerState} {now : Nat} (h : AvailStable s now) :
    AvailStable (nextKeyState s now) now := by
  intro k hk
  rw [nextKeyState_keys] at hk
  by_cases hks : k = nextKeySel s now
  · subst hks
    rw [nextKeyState_metrics_sel]
    exact availStep_fix_congr (h _ hk) rfl rfl
  · rw [nextKeyState_metrics_ne hks]
    exact h k hk

theorem availList_nextKeyState (s : ManagerState) (now : Nat) :
    availList (nextKeyState s now) now = availList s now := by
  unfold availList
  rw [nextKeyState_keys]
  apply List.filter_congr
  intro k _
  by_cases hks : k = nextKeySel s now
  · subst hks
    rw [nextKeyState_metrics_sel]
    exact availStep_keep_congr rfl rfl
  · rw [nextKeyState_metrics_ne hks]

/-! The selection sequence of repeated `getNextKey` calls is the pure
round-robin sequence. -/

theorem map_ext_mine {α β : Type} (f g : α → β) (h : ∀ a, f a = g a) :
    ∀ l : List α, l.map f = l.map g := by
  intro l
  induction l with
  | nil => rfl
  | cons hd t ih => simp [h hd, ih]

theorem rrSel_cons (A : List String) (c n : Nat) :
    rrSel A c (n + 1) =
      A.getD (c % A.length) "" :: rrSel A ((c + 1) % A.length) n := by
  unfold rrSel
  rw [List.range_succ_eq_map]
  simp only [List.map_cons, Nat.add_zero, List.map_map]
  congr 1
  apply map_ext_mine
  intro i
  simp only [Function.comp_apply]
  have he : c + Nat.succ i = c + 1 + i := by omega
  rw [Nat.mod_add_mod, he]

theorem iterateNextKey_sels {now : Nat} :
    ∀ (M : Nat) (s : ManagerState), AvailStable s now →
      0 < (availList s now).length →
      (iterateNextKey s now M).1 = rrSel (availList s now) s.currentIndex M := by
  intro M
  induction M with
  | zero => intro s _ _; simp [iterateNextKey, rrSel]
  | succ n ih =>
    intro s h hlen
    rw [iterateNextKey, getNextKey_stable h hlen]
    have hstable := availStable_nextKeyState h
    have hlist := availList_nextKeyState s now
    have hlen' : 0 < (availList (nextKeyState s now) now).length := by
      rw [hlist]; exact hlen
    simp only []
    rw [ih (nextKeyState s now) hstable hlen', hlist, nextKeyState_currentIndex,
      rrSel_cons]
    rfl

/-! Counting hits of a round-robin cursor: the arithmetic behind fairness. -/

theorem countP_ext {α : Type} (p q : α → Bool) :
    ∀ (l : List α), (∀ a ∈ l, p a = q a) → l.countP p = l.countP q := by
  intro l
  induction l with
  | nil => intro _; rfl
  | cons hd t ih =>
    intro h
    rw [List.countP_cons, List.countP_cons, h hd (List.mem_cons_self hd t),
      ih (fun a ha => h a (List.mem_cons_of_mem hd ha))]

theorem mod_shift {N j : Nat} (hN : 0 < N) (hj : j < N) (c i : Nat) :
    ((c + i) % N = j) ↔ (i % N = (j + (N - c % N)) % N) := by
  have h3 := Nat.div_add_mod c N
  have hcm : c % N < N := Nat.mod_lt _ hN
  have h4 : N * (c / N + 1) = N * (c / N) + N := by ring
  have h2 : c + (j + (N - c % N)) = j + N * (c / N + 1) := by omega
  have hkey : (c + (j + (N - c % N))) % N = j := by
    rw [h2, Nat.add_mul_mod_self_left, Nat.mod_eq_of_lt hj]
  constructor
  · intro h
    have hmod : (c + i) % N = (c + (j + (N - c % N))) % N := by rw [h, hkey]
    exact Nat.ModEq.add_left_cancel' c hmod
  · intro h
    have hmod : c + i ≡ c + (j + (N - c % N)) [MOD N] := Nat.ModEq.add_left c h
    have : (c + i) % N = (c + (j + (N - c % N))) % N := hmod
    rw [this, hkey]

theorem hitCount_succ (c j N M : Nat) :
    hitCount c j N (M + 1) =
      hitCount c j N M + (if (c + M) % N == j then 1 else 0) := by
  unfold hitCount
  have hr : List.range (M + 1) = List.range M ++ [M] := by
    exact List.range_succ M
  rw [hr, List.countP_append]
  simp [List.countP_cons]

theorem hitCount_formula {N j : Nat} (hN : 0 < N) (hj : j < N) (c : Nat) :
    ∀ M, hitCount c j N M =
      M / N + (if (j + (N - c % N)) % N < M % N then 1 else 0) := by
  intro M
  induction M with
  | zero => simp [hitCount]
  | succ M ih =>
    rw [hitCount_succ, ih]
    have hd : (j + (N - c % N)) % N < N := Nat.mod_lt _ hN
    have hM := Nat.div_add_mod M N
    have hsN : M % N < N := Nat.mod_lt _ hN
    have hb : ((c + M) % N == j) = decide (M % N = (j + (N - c % N)) % N) := by
      by_cases hcase : (c + M) % N = j
      · rw [(mod_shift hN hj c M).mp hcase]
        simp [hcase]
      · have : ¬ (M % N = (j + (N - c % N)) % N) :=
          fun hmm => hcase ((mod_shift hN hj c M).mpr hmm)
        simp [hcase, this]
    rw [hb]
    simp only [decide_eq_true_eq]
    by_cases hs : M % N + 1 = N
    · have h5 : N * (M / N + 1) = N * (M / N) + N := by ring
      have e1 : M + 1 = N * (M / N + 1) := by omega
      have ediv : (M + 1) / N = M / N + 1 := by
        rw [e1, Nat.mul_div_cancel_left _ hN]
      have emod : (M + 1) % N = 0 := by
        rw [e1, Nat.mul_mod_right]
      rw [ediv, emod, if_neg (Nat.not_lt_zero _)]
      by_cases hdm : M % N = (j + (N - c % N)) % N
      · have hc2 : ¬ ((j + (N - c % N)) % N < M % N) := by omega
        rw [if_pos hdm, if_neg hc2]
      · have hc1 : (j + (N - c % N)) % N < M % N := by omega
        rw [if_neg hdm, if_pos hc1]
    · have e1 : M + 1 = (M % N + 1) + N * (M / N) := by omega
      have ediv : (M + 1) / N = M / N := by
        rw [e1, Nat.add_mul_div_left _ _ hN, Nat.div_eq_of_lt (by omega)]
        omega
      have emod : (M + 1) % N = M % N + 1 := by
        rw [e1, Nat.add_mul_mod_self_left, Nat.mod_eq_of_lt (by omega)]
      rw [ediv, emod]
      by_cases hdm : M % N = (j + (N - c % N)) % N
      · have hc1 : (j + (N - c % N)) % N < M % N + 1 := by omega
        have hc2 : ¬ ((j + (N - c % N)) % N < M % N) := by omega
        rw [if_pos hdm, if_pos hc1, if_neg hc2]
      · rw [if_neg hdm]
        by_cases hlt : (j + (N - c % N)) % N < M % N
        · have hc1 : (j + (N - c % N)) % N < M % N + 1 := by omega
          rw [if_pos hlt, if_pos hc1]
        · have hc2 : ¬ ((j + (N - c % N)) % N < M % N + 1) := by omega
          rw [if_neg hlt, if_neg hc2]

theorem ceilDivNat_of_pos_mod {M N : Nat} (hN : 0 < N) (hs : 0 < M % N) :
    ceilDivNat M N = M / N + 1 := by
  have hM := Nat.div_add_mod M N
  have hsN : M % N < N := Nat.mod_lt M hN
  have h5 : N * (M / N + 1) = N * (M / N) + N := by ring
  have e1 : M + N - 1 = (M % N - 1) + N * (M / N + 1) := by omega
  unfold ceilDivNat
  rw [e1, Nat.add_mul_div_left _ _ hN, Nat.div_eq_of_lt (by omega)]
  omega

theorem hitCount_floor_ceil {N j : Nat} (hN : 0 < N) (hj : j < N) (c M : Nat) :
    hitCount c j N M = M / N ∨ hitCount c j N M = ceilDivNat M N := by
  rw [hitCount_formula hN hj]
  by_cases hd : (j + (N - c % N)) % N < M % N
  · right
    rw [if_pos hd, ceilDivNat_of_pos_mod hN (by omega)]
  · left
    rw [if_neg hd]
    omega

theorem rrSel_count_get {A : List String} (hnd : A.Nodup) {j : Nat}
    (hj : j < A.length) (c M : Nat) :
    (rrSel A c M).count (A.get ⟨j, hj⟩) = hitCount c j A.length M := by
  have hN : 0 < A.length := by omega
  unfold rrSel hitCount
  rw [show ((List.range M).map (fun i => A.getD ((c + i) % A.length) "")).count
        (A.get ⟨j, hj⟩) =
      ((List.range M).map (fun i => A.getD ((c + i) % A.length) "")).countP
        (· == A.get ⟨j, hj⟩) from rfl]
  rw [List.countP_map]
  apply countP_ext
  intro i _
  have hlt : (c + i) % A.length < A.length := Nat.mod_lt _ hN
  simp only [Function.comp_apply]
  rw [List.getD_eq_get _ _ hlt]
  by_cases he : (c + i) % A.length = j
  · simp only [he]
    simp
  · have hne : A.get ⟨(c + i) % A.length, hlt⟩ ≠ A.get ⟨j, hj⟩ := by
      intro heq
      have := hnd.get_inj_iff.mp heq
      simp only [Fin.mk.injEq] at this
      exact he this
    simp only [List.get_eq_getElem] at hne
    simp [hne, he]

/-! Lemmas about the retry loop. -/

theorem retryGo_workCalls_le {T : Type} (work : Nat → String → Except String T)
    (clock : Nat → Nat) :
    ∀ (r attempt ac wc : Nat) (le : Option String) (s : ManagerState),
      (retryGo work clock r attempt ac wc le s).workCalls ≤ wc + r := by
  intro r
  induction r with
  | zero =>
    intro attempt ac wc le s
    simp [retryGo]
  | succ r ih =>
    intro attempt ac wc le s
    simp only [retryGo]
    split
    · split <;> simp
    · split
      · split <;> simp
      · rename_i msg wi s' _ _
        have h := ih (attempt + 1) (ac + 1) (if wi then wc + 1 else wc) (some msg) s'
        by_cases hwi : wi <;> simp [hwi] at h ⊢ <;> omega

theorem executeWithRetry_workCalls {T : Type} (work : Nat → String → Except String T)
    (operation : String) (clock : Nat → Nat) (s : ManagerState) :
    (executeWithRetry work operation clock s).workCalls =
      (retryGo work clock (min maxRetries (getAvailableKeys s (clock 0)).1.length)
        1 0 0 none (getAvailableKeys s (clock 0)).2).workCalls := by
  simp only [executeWithRetry]
  split
  · rfl
  · split <;> rfl

/-- Claim C1: every call to `executeWithRetry` invokes the supplied work
function at most `min(maxRetries = 3, number of credentials available at
entry)` times; in particular, with 5 available credentials and an
always-failing work function it is invoked exactly 3 times, not 5. -/
theorem C1_attempt_cap :
    maxRetries = 3 ∧
    (∀ (T : Type) (work : Nat → String → Except String T) (operation : String)
      (clock : Nat → Nat) (s : ManagerState),
      (executeWithRetry work operation clock s).workCalls ≤
        min maxRetries (getAvailableKeys s (clock 0)).1.length) ∧
    (getAvailableKeys (freshState ["key1", "key2", "key3", "key4", "key5"]) 0).1.length
      = 5 ∧
    (executeWithRetry (fun _ _ => (Except.error "boom" : Except String Nat)) "generate"
      (fun i => 1000 * i)
      (freshState ["key1", "key2", "key3", "key4", "key5"])).workCalls = 3 := by
  refine ⟨rfl, ?_, by decide, by decide⟩
  intro T work operation clock s
  rw [executeWithRetry_workCalls]
  have h := retryGo_workCalls_le work clock
    (min maxRetries (getAvailableKeys s (clock 0)).1.length) 1 0 0 none
    (getAvailableKeys s (clock 0)).2
  omega

/-- Claim C2: when every credential is blocked at entry (no available key),
`executeWithRetry` fails with the `ApiError` carrying HTTP status 429 and code
`ALL_KEYS_EXHAUSTED`, and the work function is never invoked. -/
theorem C2_exhausted_at_entry :
    ∀ (T : Type) (work : Nat → String → Except String T) (operation : String)
      (clock : Nat → Nat) (s : ManagerState),
      (getAvailableKeys s (clock 0)).1 = [] →
      (executeWithRetry work operation clock s).result = .error exhaustedError ∧
      (executeWithRetry work operation clock s).workCalls = 0 ∧
      exhaustedError.statusCode = 429 ∧
      exhaustedError.code = some "ALL_KEYS_EXHAUSTED" := by
  intro T work operation clock s h
  have hs2 : (getAvailableKeys s (clock 0)).2 = s := by
    unfold getAvailableKeys at h ⊢
    exact manager_ext rfl (availGo_nil _ _ _ h) rfl
  have hmin : min maxRetries (getAvailableKeys s (clock 0)).1.length = 0 := by
    rw [h]
    rfl
  refine ⟨?_, ?_, rfl, rfl⟩ <;>
    simp [executeWithRetry, retryGo, h, List.length_nil, Nat.min_zero, hs2]

/-- Witness for C2: a concrete fully-blocked one-key pool. -/
theorem C2_exhausted_at_entry_witness :
    (executeWithRetry (fun _ _ => (Except.error "x" : Except String Nat)) "op"
        (fun _ => 0) blockedPoolEx).result = .error exhaustedError ∧
    (executeWithRetry (fun _ _ => (Except.error "x" : Except String Nat)) "op"
        (fun _ => 0) blockedPoolEx).workCalls = 0 ∧
    exhaustedError.statusCode = 429 ∧
    exhaustedError.code = some "ALL_KEYS_EXHAUSTED" :=
  C2_exhausted_at_entry Nat (fun _ _ => Except.error "x") "op" (fun _ => 0)
    blockedPoolEx (by decide)

/-- Counterexample for C6: `markKeySuccess` does not increment `usageCount`
(that update happens at selection time in `getNextKey`). -/
theorem C6_cex_no_usage_increment :
    ((markKeySuccess (freshState ["k1"]) "k1").metrics "k1").usageCount ≠
      ((freshState ["k1"]).metrics "k1").usageCount + 1 := by
  decide

/-- Amended claim C6: `markKeySuccess` only resets `errorCount`, leaving
`usageCount`, `lastUsed`, `blocked` and `blockUntil` unchanged; the successful
attempt path (`getNextKey` followed by `markKeySuccess` on the selected key)
has the combined effect the claim describes — `errorCount` reset to 0,
`lastUsedAt` updated, `usageCount` incremented, `blocked` unchanged. -/
theorem C6_success_reset :
    (∀ (s : ManagerState) (k : String), k ∈ s.keys →
      ((markKeySuccess s k).metrics k).errorCount = 0 ∧
      ((markKeySuccess s k).metrics k).usageCount = (s.metrics k).usageCount ∧
      ((markKeySuccess s k).metrics k).lastUsed = (s.metrics k).lastUsed ∧
      ((markKeySuccess s k).metrics k).isBlocked = (s.metrics k).isBlocked ∧
      ((markKeySuccess s k).metrics k).blockUntil = (s.metrics k).blockUntil) ∧
    (∀ (s : ManagerState) (now : Nat), AvailStable s now →
      0 < (availList s now).length →
      ((markKeySuccess (nextKeyState s now) (nextKeySel s now)).metrics
          (nextKeySel s now)).errorCount = 0 ∧
      ((markKeySuccess (nextKeyState s now) (nextKeySel s now)).metrics
          (nextKeySel s now)).usageCount =
        (s.metrics (nextKeySel s now)).usageCount + 1 ∧
      ((markKeySuccess (nextKeyState s now) (nextKeySel s now)).metrics
          (nextKeySel s now)).lastUsed = now ∧
      ((markKeySuccess (nextKeyState s now) (nextKeySel s now)).metrics
          (nextKeySel s now)).isBlocked = (s.metrics (nextKeySel s now)).isBlocked ∧
      ((markKeySuccess (nextKeyState s now) (nextKeySel s now)).metrics
          (nextKeySel s now)).blockUntil =
        (s.metrics (nextKeySel s now)).blockUntil) := by
  constructor
  · intro s k hk
    rw [markKeySuccess_metrics_self hk]
    exact ⟨rfl, rfl, rfl, rfl, rfl⟩
  · intro s now hst hlen
    have hksel : nextKeySel s now ∈ (nextKeyState s now).keys := by
      rw [nextKeyState_keys]
      exact nextKeySel_mem_keys hlen
    rw [markKeySuccess_metrics_self hksel, nextKeyState_metrics_sel]
    exact ⟨rfl, rfl, rfl, rfl, rfl⟩

/-- Witness for C6: the amended statement at a concrete pool. -/
theorem C6_success_reset_witness :
    ((markKeySuccess (freshState ["aaa", "bbb"]) "aaa").metrics "aaa").errorCount = 0 ∧
    ((markKeySuccess (freshState ["aaa", "bbb"]) "aaa").metrics "aaa").usageCount =
      ((freshState ["aaa", "bbb"]).metrics "aaa").usageCount ∧
    ((markKeySuccess (freshState ["aaa", "bbb"]) "aaa").metrics "aaa").lastUsed =
      ((freshState ["aaa", "bbb"]).metrics "aaa").lastUsed ∧
    ((markKeySuccess (freshState ["aaa", "bbb"]) "aaa").metrics "aaa").isBlocked =
      ((freshState ["aaa", "bbb"]).metrics "aaa").isBlocked ∧
    ((markKeySuccess (freshState ["aaa", "bbb"]) "aaa").metrics "aaa").blockUntil =
      ((freshState ["aaa", "bbb"]).metrics "aaa").blockUntil :=
  C6_success_reset.1 (freshState ["aaa", "bbb"]) "aaa" (by decide)

/-- Counterexample for C7: `getStatus` is not a pure read — it performs the
lazy unblock of `getAvailableKeys`, here resetting the errorCount of the
expired-blocked credential `k2`. -/
theorem C7_cex_status_mutates :
    ((getStatus statusMutEx 100).2.metrics "k2").errorCount ≠
      (statusMutEx.metrics "k2").errorCount := by
  decide

/-- Amended claim C7: `getStatus` leaves the pool state (metrics and cursor)
unchanged whenever no blocked credential's block has expired at the call time;
in general its only side effect is that lazy unblocking. -/
theorem C7_status_pure_when_stable :
    ∀ (s : ManagerState) (now : Nat), AvailStable s now → (getStatus s now).2 = s := by
  intro s now h
  show (getAvailableKeys s now).2 = s
  rw [getAvailableKeys_stable h]

/-- Witness for C7: a fresh pool is availability-stable, so `getStatus` leaves
it unchanged. -/
theorem C7_status_pure_when_stable_witness :
    (getStatus (freshState ["a", "b"]) 7).2 = freshState ["a", "b"] :=
  C7_status_pure_when_stable (freshState ["a", "b"]) 7 (by decide)

/-- Claim C10: `getGeminiKeyManager` builds the instance from `env` only when
the module-level cell is empty; afterwards every call returns that same
instance and ignores its `env` argument. -/
theorem C10_lazy_singleton :
    (∀ (env1 env2 : Option Env) (m : ManagerState) (c1 : Option ManagerState),
      getGeminiKeyManager none env1 = .ok (m, c1) →
      c1 = some m ∧ getGeminiKeyManager c1 env2 = .ok (m, c1)) ∧
    (∀ (inst : ManagerState) (env : Option Env),
      getGeminiKeyManager (some inst) env = .ok (inst, some inst)) := by
  constructor
  · intro env1 env2 m c1 h
    unfold getGeminiKeyManager at h
    cases hn : newGeminiKeyManager env1 with
    | ok m2 =>
      rw [hn] at h
      simp only [Except.ok.injEq, Prod.mk.injEq] at h
      obtain ⟨hm, hc⟩ := h
      subst hm
      subst hc
      exact ⟨rfl, rfl⟩
    | error e =>
      rw [hn] at h
      simp at h
  · intro inst env
    rfl

/-- Witness for C10: a first call constructs from the (legacy) environment,
a second call with a different environment returns the same instance. -/
theorem C10_lazy_singleton_witness :
    getGeminiKeyManager (some (freshState ["kk"]))
        (some { geminiApiKeys := some "zz", legacyKey := fun _ => none }) =
      .ok (freshState ["kk"], some (freshState ["kk"])) :=
  (C10_lazy_singleton.1
    (some { geminiApiKeys := none, legacyKey := fun i => if i = 0 then some "kk" else none })
    (some { geminiApiKeys := some "zz", legacyKey := fun _ => none })
    (freshState ["kk"]) (some (freshState ["kk"])) rfl).2

/-- `markKeyError` below the block threshold only increments the error count. -/
theorem markKeyError_low {s : ManagerState} {k : String} (now : Nat) (hk : k ∈ s.keys)
    (hlow : (s.metrics k).errorCount + 1 < maxErrorsBeforeBlock) :
    (markKeyError s k now).metrics k =
      { s.metrics k with errorCount := (s.metrics k).errorCount + 1 } := by
  rw [markKeyError_metrics_self now hk, if_neg (by omega)]

/-- One sub-threshold `markKeyError` step, summarized. -/
theorem markKeyError_step {s : ManagerState} {k : String} {b : Option Nat} (now : Nat)
    (hk : k ∈ s.keys) {n : Nat} (hec : (s.metrics k).errorCount = n)
    (hn : n + 1 < maxErrorsBeforeBlock) (hb : (s.metrics k).isBlocked = false)
    (hu : (s.metrics k).blockUntil = b) :
    k ∈ (markKeyError s k now).keys ∧
    ((markKeyError s k now).metrics k).errorCount = n + 1 ∧
    ((markKeyError s k now).metrics k).isBlocked = false ∧
    ((markKeyError s k now).metrics k).blockUntil = b := by
  have e := markKeyError_low now hk (by omega)
  refine ⟨by rw [markKeyError_keys]; exact hk, ?_, ?_, ?_⟩
  · rw [e]
    simp [hec]
  · rw [e]
    exact hb
  · rw [e]
    exact hu

/-- Claim C4: a failure is classified rate-limited exactly when its message
contains, case-insensitively, "429", "rate limit", "quota" or "too many
requests"; a rate-limited failure blocks the credential for 60 s
(`blockDurationMs`) and increments its error count; any other failure
increments the error count and blocks for 120 s exactly when the count
reaches `maxErrorsBeforeBlock = 5`; after 4 consecutive errors with no
intervening success the credential is still available. -/
theorem C4_error_classification :
    (∀ msg : String, isRateLimitError msg =
      (ciContains "429" msg || ciContains "rate limit" msg || ciContains "quota" msg ||
        ciContains "too many requests" msg)) ∧
    (blockDurationMs = 60000 ∧ maxErrorsBeforeBlock = 5 ∧ blockDurationMs * 2 = 120000) ∧
    (∀ (s : ManagerState) (k : String) (now : Nat), k ∈ s.keys →
      ((markKeyAsRateLimited s k now).metrics k).isBlocked = true ∧
      ((markKeyAsRateLimited s k now).metrics k).blockUntil =
        some (now + blockDurationMs) ∧
      ((markKeyAsRateLimited s k now).metrics k).errorCount =
        (s.metrics k).errorCount + 1) ∧
    (∀ (s : ManagerState) (k : String) (now : Nat), k ∈ s.keys →
      ((markKeyError s k now).metrics k).errorCount = (s.metrics k).errorCount + 1 ∧
      (maxErrorsBeforeBlock ≤ (s.metrics k).errorCount + 1 →
        ((markKeyError s k now).metrics k).isBlocked = true ∧
        ((markKeyError s k now).metrics k).blockUntil =
          some (now + blockDurationMs * 2)) ∧
      ((s.metrics k).errorCount + 1 < maxErrorsBeforeBlock →
        ((markKeyError s k now).metrics k).isBlocked = (s.metrics k).isBlocked ∧
        ((markKeyError s k now).metrics k).blockUntil = (s.metrics k).blockUntil)) ∧
    (∀ (s : ManagerState) (k : String) (now t : Nat), k ∈ s.keys →
      (s.metrics k).errorCount = 0 → (s.metrics k).isBlocked = false →
      ((markKeyError (markKeyError (markKeyError (markKeyError s k now) k now) k now)
          k now).metrics k).errorCount = 4 ∧
      ((markKeyError (markKeyError (markKeyError (markKeyError s k now) k now) k now)
          k now).metrics k).isBlocked = false ∧
      k ∈ availList (markKeyError (markKeyError (markKeyError (markKeyError s k now)
          k now) k now) k now) t) := by
  refine ⟨?_, ⟨rfl, rfl, rfl⟩, ?_, ?_, ?_⟩
  · intro msg
    have h1 : lowerData "429" = "429".data := by decide
    have h2 : lowerData "rate limit" = "rate limit".data := by decide
    have h3 : lowerData "quota" = "quota".data := by decide
    have h4 : lowerData "too many requests" = "too many requests".data := by decide
    simp only [isRateLimitError, ciContains]
    rw [h1, h2, h3, h4]
  · intro s k now hk
    rw [markKeyAsRateLimited_metrics_self now hk]
    exact ⟨rfl, rfl, rfl⟩
  · intro s k now hk
    rw [markKeyError_metrics_self now hk]
    by_cases hc : maxErrorsBeforeBlock ≤ (s.metrics k).errorCount + 1
    · rw [if_pos hc]
      exact ⟨rfl, fun _ => ⟨rfl, rfl⟩, fun hlt => absurd hc (by omega)⟩
    · rw [if_neg hc]
      exact ⟨rfl, fun hge => absurd hge hc, fun _ => ⟨rfl, rfl⟩⟩
  · intro s k now t hk h0 hb
    obtain ⟨hk1, he1, hb1, hu1⟩ := markKeyError_step now hk h0 (by decide) hb rfl
    obtain ⟨hk2, he2, hb2, hu2⟩ := markKeyError_step now hk1 he1 (by decide) hb1 hu1
    obtain ⟨hk3, he3, hb3, hu3⟩ := markKeyError_step now hk2 he2 (by decide) hb2 hu2
    obtain ⟨hk4, he4, hb4, hu4⟩ := markKeyError_step now hk3 he3 (by decide) hb3 hu3
    refine ⟨he4, hb4, List.mem_filter.mpr ⟨hk4, ?_⟩⟩
    simp [availStep, hb4]

/-- Witness for C4: the classifier and the marking operations at concrete
inputs. -/
theorem C4_error_classification_witness :
    isRateLimitError "HTTP 429 Too Many Requests" =
      (ciContains "429" "HTTP 429 Too Many Requests" ||
        ciContains "rate limit" "HTTP 429 Too Many Requests" ||
        ciContains "quota" "HTTP 429 Too Many Requests" ||
        ciContains "too many requests" "HTTP 429 Too Many Requests") ∧
    ((markKeyAsRateLimited (freshState ["ka", "kb"]) "ka" 1000).metrics "ka").isBlocked
      = true ∧
    ((markKeyError (markKeyError (markKeyError (markKeyError (freshState ["ka", "kb"])
        "ka" 1000) "ka" 1000) "ka" 1000) "ka" 1000).metrics "ka").errorCount = 4 :=
  ⟨C4_error_classification.1 "HTTP 429 Too Many Requests",
    (C4_error_classification.2.2.1 (freshState ["ka", "kb"]) "ka" 1000 (by decide)).1,
    (C4_error_classification.2.2.2.2 (freshState ["ka", "kb"]) "ka" 1000 0 (by decide)
      (by decide) (by decide)).1⟩

/-- Claim C5: over a duplicate-free pool in an availability-stable state with
`N > 0` available credentials, `M` sequential `getNextKey` calls (with no
intervening failures or blocking changes) select each available credential
exactly `⌊M/N⌋` or `⌈M/N⌉` times; on the fresh pool `["k1", "k2"]` four
sequential calls return `k1, k2, k1, k2` in that order. -/
theorem C5_round_robin_fairness :
    (∀ (s : ManagerState) (now M : Nat) (k : String),
      s.keys.Nodup → AvailStable s now → 0 < (availList s now).length →
      k ∈ availList s now →
      (iterateNextKey s now M).1.count k = M / (availList s now).length ∨
      (iterateNextKey s now M).1.count k = ceilDivNat M (availList s now).length) ∧
    (iterateNextKey (freshState ["k1", "k2"]) 0 4).1 = ["k1", "k2", "k1", "k2"] := by
  constructor
  · intro s now M k hnd hst hlen hk
    rw [iterateNextKey_sels M s hst hlen]
    have hndA : (availList s now).Nodup := availList_nodup now hnd
    obtain ⟨⟨j, hj⟩, hget⟩ := List.mem_iff_get.mp hk
    subst hget
    rw [rrSel_count_get hndA hj s.currentIndex M]
    exact hitCount_floor_ceil (by omega) hj s.currentIndex M
  · decide

/-- Witness for C5: the fairness statement at the fresh two-key pool. -/
theorem C5_round_robin_fairness_witness :
    (iterateNextKey (freshState ["k1", "k2"]) 0 4).1.count "k1" =
        4 / (availList (freshState ["k1", "k2"]) 0).length ∨
    (iterateNextKey (freshState ["k1", "k2"]) 0 4).1.count "k1" =
        ceilDivNat 4 (availList (freshState ["k1", "k2"]) 0).length :=
  C5_round_robin_fairness.1 (freshState ["k1", "k2"]) 0 4 "k1" (by decide) (by decide)
    (by decide) (by decide)

/-- While a key is blocked with an unexpired `blockUntil`, an availability
query excludes it and leaves its metrics unchanged. -/
theorem getAvailableKeys_blocked {s : ManagerState} {k : String} {bu t : Nat}
    (hb : (s.metrics k).isBlocked = true) (hbu : (s.metrics k).blockUntil = some bu)
    (ht : t < bu) :
    k ∉ (getAvailableKeys s t).1 ∧ (getAvailableKeys s t).2.metrics k = s.metrics k ∧
    (getAvailableKeys s t).2.keys = s.keys := by
  have hstep : availStep t (s.metrics k) = (false, s.metrics k) := by
    unfold availStep
    rw [hb, hbu]
    simp [ht]
  refine ⟨?_, ?_, rfl⟩
  · exact not_mem_availGo s.keys s.metrics (by rw [hstep])
  · rw [getAvailableKeys_metrics]
    by_cases hks : k ∈ s.keys <;> simp [hks, hstep]

/-- A chain of availability queries at times before the block expiry keeps a
blocked key excluded and its metrics untouched. -/
theorem queryChain_blocked {k : String} {bu : Nat} :
    ∀ (ts : List Nat) (s : ManagerState),
      (s.metrics k).isBlocked = true → (s.metrics k).blockUntil = some bu →
      (∀ t ∈ ts, t < bu) →
      (∀ l ∈ (queryChain s ts).1, k ∉ l) ∧
      (queryChain s ts).2.metrics k = s.metrics k ∧
      (queryChain s ts).2.keys = s.keys := by
  intro ts
  induction ts with
  | nil =>
    intro s _ _ _
    exact ⟨by simp [queryChain], rfl, rfl⟩
  | cons t ts ih =>
    intro s hb hbu hts
    have h1 := getAvailableKeys_blocked hb hbu (hts t (List.mem_cons_self t ts))
    have hb2 : ((getAvailableKeys s t).2.metrics k).isBlocked = true := by
      rw [h1.2.1]
      exact hb
    have hbu2 : ((getAvailableKeys s t).2.metrics k).blockUntil = some bu := by
      rw [h1.2.1]
      exact hbu
    have ih2 := ih (getAvailableKeys s t).2 hb2 hbu2
      (fun u hu => hts u (List.mem_cons_of_mem t hu))
    simp only [queryChain]
    refine ⟨?_, ?_, ?_⟩
    · intro l hl
      rcases List.mem_cons.mp hl with rfl | hl2
      · exact h1.1
      · exact ih2.1 l hl2
    · rw [ih2.2.1, h1.2.1]
    · rw [ih2.2.2, h1.2.2]

/-- Once the block has expired, the next availability query readmits the key
and resets its `blocked`, `errorCount` and `blockUntil`. -/
theorem getAvailableKeys_expired {s : ManagerState} {k : String} {bu t : Nat}
    (hk : k ∈ s.keys) (hb : (s.metrics k).isBlocked = true)
    (hbu : (s.metrics k).blockUntil = some bu) (ht : bu ≤ t) :
    k ∈ (getAvailableKeys s t).1 ∧
    ((getAvailableKeys s t).2.metrics k).isBlocked = false ∧
    ((getAvailableKeys s t).2.metrics k).errorCount = 0 ∧
    ((getAvailableKeys s t).2.metrics k).blockUntil = none := by
  have hstep1 : (availStep t (s.metrics k)).1 = true := by
    unfold availStep
    rw [hb, hbu]
    simp [Nat.not_lt.mpr ht]
  have hstep2 : (availStep t (s.metrics k)).2 =
      { s.metrics k with isBlocked := false, blockUntil := none, errorCount := 0 } := by
    unfold availStep
    rw [hb, hbu]
    simp [Nat.not_lt.mpr ht]
  refine ⟨mem_availGo s.metrics hk hstep1, ?_, ?_, ?_⟩ <;>
    rw [getAvailableKeys_metrics, if_pos hk, hstep2]

/-- Claim C3: after `markKeyAsRateLimited(k)` at time `now`, `k` is absent
from every `getAvailableKeys` result at times before `now + blockDurationMs`,
and the first call at or after that expiry readmits `k` with `blocked` reset
to false, `errorCount` reset to 0 and `blockUntil` cleared. -/
theorem C3_quarantine :
    ∀ (s : ManagerState) (k : String) (now tExp : Nat) (ts : List Nat),
      k ∈ s.keys → (∀ t ∈ ts, t < now + blockDurationMs) →
      now + blockDurationMs ≤ tExp →
      (∀ l ∈ (queryChain (markKeyAsRateLimited s k now) ts).1, k ∉ l) ∧
      k ∈ (getAvailableKeys (queryChain (markKeyAsRateLimited s k now) ts).2 tExp).1 ∧
      ((getAvailableKeys (queryChain (markKeyAsRateLimited s k now) ts).2
          tExp).2.metrics k).isBlocked = false ∧
      ((getAvailableKeys (queryChain (markKeyAsRateLimited s k now) ts).2
          tExp).2.metrics k).errorCount = 0 ∧
      ((getAvailableKeys (queryChain (markKeyAsRateLimited s k now) ts).2
          tExp).2.metrics k).blockUntil = none := by
  intro s k now tExp ts hk hts htE
  have hmm := markKeyAsRateLimited_metrics_self now hk
  have hb : ((markKeyAsRateLimited s k now).metrics k).isBlocked = true := by
    rw [hmm]
  have hbu : ((markKeyAsRateLimited s k now).metrics k).blockUntil =
      some (now + blockDurationMs) := by
    rw [hmm]
  have hq := queryChain_blocked ts (markKeyAsRateLimited s k now) hb hbu hts
  have hkq : k ∈ (queryChain (markKeyAsRateLimited s k now) ts).2.keys := by
    rw [hq.2.2, markKeyAsRateLimited_keys]
    exact hk
  have hbq : ((queryChain (markKeyAsRateLimited s k now) ts).2.metrics k).isBlocked
      = true := by
    rw [hq.2.1]
    exact hb
  have hbuq : ((queryChain (markKeyAsRateLimited s k now) ts).2.metrics k).blockUntil
      = some (now + blockDurationMs) := by
    rw [hq.2.1]
    exact hbu
  have hex := getAvailableKeys_expired hkq hbq hbuq htE
  exact ⟨hq.1, hex.1, hex.2.1, hex.2.2.1, hex.2.2.2⟩

/-- Witness for C3: a concrete two-key pool, rate-limit at time 100; the
query at 200 excludes `k1` (its result list is `["k2"]`), and the query at
60100 readmits `k1` reset. -/
theorem C3_quarantine_witness :
    "k1" ∉ ["k2"] ∧
    "k1" ∈ (getAvailableKeys (queryChain (markKeyAsRateLimited
        (freshState ["k1", "k2"]) "k1" 100) [200, 30000]).2 60100).1 ∧
    ((getAvailableKeys (queryChain (markKeyAsRateLimited (freshState ["k1", "k2"])
        "k1" 100) [200, 30000]).2 60100).2.metrics "k1").isBlocked = false ∧
    ((getAvailableKeys (queryChain (markKeyAsRateLimited (freshState ["k1", "k2"])
        "k1" 100) [200, 30000]).2 60100).2.metrics "k1").errorCount = 0 ∧
    ((getAvailableKeys (queryChain (markKeyAsRateLimited (freshState ["k1", "k2"])
        "k1" 100) [200, 30000]).2 60100).2.metrics "k1").blockUntil = none := by
  have h := C3_quarantine (freshState ["k1", "k2"]) "k1" 100 60100 [200, 30000]
    (by decide) (by decide) (by decide)
  exact ⟨h.1 ["k2"] (by decide), h.2.1, h.2.2.1, h.2.2.2.1, h.2.2.2.2⟩

/-! `getLastUsedKey` returns the unique freshest key. -/

theorem lastUsedFold_const {s : ManagerState} {t : Nat} :
    ∀ (ks : List String) (x : Option String),
      (∀ k ∈ ks, (s.metrics k).lastUsed ≤ t) →
      ks.foldl (fun acc k =>
        if (s.metrics k).lastUsed > acc.2 then (some k, (s.metrics k).lastUsed)
        else acc) (x, t) = (x, t) := by
  intro ks
  induction ks with
  | nil =>
    intro x _
    rfl
  | cons hd tl ih =>
    intro x h
    simp only [List.foldl_cons]
    rw [if_neg (by have := h hd (List.mem_cons_self hd tl); omega)]
    exact ih x (fun k hk => h k (List.mem_cons_of_mem hd hk))

theorem lastUsedFold_sel {s : ManagerState} {sel : String} :
    ∀ (ks : List String) (x : Option String) (acc2 : Nat),
      sel ∈ ks → acc2 < (s.metrics sel).lastUsed →
      (∀ k ∈ ks, k ≠ sel → (s.metrics k).lastUsed < (s.metrics sel).lastUsed) →
      ks.foldl (fun acc k =>
        if (s.metrics k).lastUsed > acc.2 then (some k, (s.metrics k).lastUsed)
        else acc) (x, acc2) = (some sel, (s.metrics sel).lastUsed) := by
  intro ks
  induction ks with
  | nil =>
    intro x acc2 h
    simp at h
  | cons hd tl ih =>
    intro x acc2 hmem hacc hothers
    simp only [List.foldl_cons]
    by_cases hhd : hd = sel
    · subst hhd
      rw [if_pos (by omega)]
      apply lastUsedFold_const tl
      intro k hk
      by_cases hks : k = hd
      · subst hks
        exact Nat.le_refl _
      · exact Nat.le_of_lt (hothers k (List.mem_cons_of_mem hd hk) hks)
    · have hmem2 : sel ∈ tl := by
        rcases List.mem_cons.mp hmem with h1 | h1
        · exact absurd h1.symm hhd
        · exact h1
      have hlt : (s.metrics hd).lastUsed < (s.metrics sel).lastUsed :=
        hothers hd (List.mem_cons_self hd tl) hhd
      by_cases hgt : (s.metrics hd).lastUsed > acc2
      · rw [if_pos hgt]
        exact ih (some hd) _ hmem2 hlt
          (fun k hk hne => hothers k (List.mem_cons_of_mem hd hk) hne)
      · rw [if_neg hgt]
        exact ih x acc2 hmem2 hacc
          (fun k hk hne => hothers k (List.mem_cons_of_mem hd hk) hne)

theorem getLastUsedKey_sel {s : ManagerState} {sel : String}
    (hmem : sel ∈ s.keys) (hpos : 0 < (s.metrics sel).lastUsed)
    (hothers : ∀ k ∈ s.keys, k ≠ sel →
      (s.metrics k).lastUsed < (s.metrics sel).lastUsed) :
    getLastUsedKey s = some sel := by
  unfold getLastUsedKey
  rw [lastUsedFold_sel s.keys none 0 hmem hpos hothers]

/-! The marking operations never change a key's `usageCount`. -/

theorem markKeyAsRateLimited_usageCount (s : ManagerState) (k j : String) (now : Nat) :
    ((markKeyAsRateLimited s k now).metrics j).usageCount =
      (s.metrics j).usageCount := by
  by_cases hj : j = k
  · subst hj
    by_cases hk : j ∈ s.keys
    · rw [markKeyAsRateLimited_metrics_self now hk]
    · unfold markKeyAsRateLimited
      rw [if_neg hk]
  · rw [markKeyAsRateLimited_metrics_ne now hj]

theorem markKeyError_usageCount (s : ManagerState) (k j : String) (now : Nat) :
    ((markKeyError s k now).metrics j).usageCount = (s.metrics j).usageCount := by
  by_cases hj : j = k
  · subst hj
    by_cases hk : j ∈ s.keys
    · rw [markKeyError_metrics_self now hk]
      by_cases hc : maxErrorsBeforeBlock ≤ (s.metrics j).errorCount + 1
      · rw [if_pos hc]
      · rw [if_neg hc]
    · unfold markKeyError
      rw [if_neg hk]
  · rw [markKeyError_metrics_ne now hj]

/-- `attemptStep` from an availability-stable state, in terms of the selected
key. -/
theorem attemptStep_stable {T : Type} (w : String → Except String T)
    {s : ManagerState} {now : Nat} (hst : AvailStable s now)
    (hlen : 0 < (availList s now).length) :
    attemptStep w s now =
      match w (nextKeySel s now) with
      | .ok v => ⟨.ok v, true, markKeySuccess (nextKeyState s now) (nextKeySel s now)⟩
      | .error msg => ⟨.error msg, true, catchHandle (nextKeyState s now) msg now⟩ := by
  unfold attemptStep
  rw [getNextKey_stable hst hlen]

theorem attemptStep_stable_ok {T : Type} {w : String → Except String T}
    {s : ManagerState} {now : Nat} {v : T} (hst : AvailStable s now)
    (hlen : 0 < (availList s now).length) (hw : w (nextKeySel s now) = .ok v) :
    attemptStep w s now =
      ⟨.ok v, true, markKeySuccess (nextKeyState s now) (nextKeySel s now)⟩ := by
  rw [attemptStep_stable w hst hlen, hw]

theorem attemptStep_stable_error {T : Type} {w : String → Except String T}
    {s : ManagerState} {now : Nat} {msg : String} (hst : AvailStable s now)
    (hlen : 0 < (availList s now).length) (hw : w (nextKeySel s now) = .error msg) :
    attemptStep w s now =
      ⟨.error msg, true, catchHandle (nextKeyState s now) msg now⟩ := by
  rw [attemptStep_stable w hst hlen, hw]

/-- Counterexample for C8: with `k2` carrying an expired block, a successful
attempt at time 100 selects `k1` yet also rewrites `k2`'s metrics (the lazy
unblock of `getAvailableKeys`), so an attempt can update more than the
selected credential. -/
theorem C8_cex_other_key_mutated :
    (getNextKey attemptFrameEx 100).1.toOption = some "k1" ∧
    (attemptStep (fun _ => (Except.ok 42 : Except String Nat))
        attemptFrameEx 100).state.metrics "k2" ≠ attemptFrameEx.metrics "k2" := by
  decide

/-- Amended claim C8: from a duplicate-free availability-stable state in
which every credential was last used strictly before the attempt time, an
attempt (successful or failed) invokes the work function, updates exactly the
selected credential's metrics (its `usageCount` increases), and leaves every
other credential's metrics unchanged. -/
theorem C8_attempt_single_update :
    ∀ (T : Type) (w : String → Except String T) (s : ManagerState) (now : Nat),
      s.keys.Nodup → AvailStable s now →
      (∀ k ∈ s.keys, (s.metrics k).lastUsed < now) →
      0 < (availList s now).length →
      (attemptStep w s now).workInvoked = true ∧
      ((attemptStep w s now).state.metrics (nextKeySel s now)).usageCount =
        (s.metrics (nextKeySel s now)).usageCount + 1 ∧
      (∀ k ∈ s.keys, k ≠ nextKeySel s now →
        (attemptStep w s now).state.metrics k = s.metrics k) := by
  intro T w s now hnd hst hlu hlen
  have hselk : nextKeySel s now ∈ s.keys := nextKeySel_mem_keys hlen
  have hselk1 : nextKeySel s now ∈ (nextKeyState s now).keys := by
    rw [nextKeyState_keys]
    exact hselk
  have hs1sel : ((nextKeyState s now).metrics (nextKeySel s now)).lastUsed = now := by
    rw [nextKeyState_metrics_sel]
  have hs1usage : ((nextKeyState s now).metrics (nextKeySel s now)).usageCount =
      (s.metrics (nextKeySel s now)).usageCount + 1 := by
    rw [nextKeyState_metrics_sel]
  have hs1other : ∀ k ∈ s.keys, k ≠ nextKeySel s now →
      (nextKeyState s now).metrics k = s.metrics k :=
    fun k _ hne => nextKeyState_metrics_ne hne
  have hpos : 0 < now := by
    have := hlu (nextKeySel s now) hselk
    omega
  have hlast : getLastUsedKey (nextKeyState s now) = some (nextKeySel s now) := by
    apply getLastUsedKey_sel hselk1
    · rw [hs1sel]
      exact hpos
    · intro k hk hne
      rw [nextKeyState_keys] at hk
      rw [hs1sel, hs1other k hk hne]
      exact hlu k hk
  cases hw : w (nextKeySel s now) with
  | ok v =>
    rw [attemptStep_stable_ok hst hlen hw]
    dsimp only
    refine ⟨rfl, ?_, ?_⟩
    · rw [markKeySuccess_metrics_self hselk1]
      exact hs1usage
    · intro k hk hne
      rw [markKeySuccess_metrics_ne hne]
      exact hs1other k hk hne
  | error msg =>
    rw [attemptStep_stable_error hst hlen hw]
    dsimp only
    unfold catchHandle
    rw [hlast]
    refine ⟨rfl, ?_, ?_⟩
    · by_cases hrl : isRateLimitError msg
      · rw [if_pos hrl]
        rw [markKeyAsRateLimited_usageCount]
        exact hs1usage
      · rw [if_neg hrl]
        rw [markKeyError_usageCount]
        exact hs1usage
    · intro k hk hne
      by_cases hrl : isRateLimitError msg
      · rw [if_pos hrl, markKeyAsRateLimited_metrics_ne now hne]
        exact hs1other k hk hne
      · rw [if_neg hrl, markKeyError_metrics_ne now hne]
        exact hs1other k hk hne

/-- Witness for C8: the amended statement on a fresh two-key pool at time 5,
with the frame conjunct instantiated at the unselected key `w2`. -/
theorem C8_attempt_single_update_witness :
    (attemptStep (fun _ => (Except.error "boom" : Except String Nat))
        (freshState ["w1", "w2"]) 5).workInvoked = true ∧
    ((attemptStep (fun _ => (Except.error "boom" : Except String Nat))
        (freshState ["w1", "w2"]) 5).state.metrics
        (nextKeySel (freshState ["w1", "w2"]) 5)).usageCount =
      ((freshState ["w1", "w2"]).metrics
        (nextKeySel (freshState ["w1", "w2"]) 5)).usageCount + 1 ∧
    (attemptStep (fun _ => (Except.error "boom" : Except String Nat))
        (freshState ["w1", "w2"]) 5).state.metrics "w2" =
      (freshState ["w1", "w2"]).metrics "w2" := by
  have h := C8_attempt_single_update Nat (fun _ => Except.error "boom")
    (freshState ["w1", "w2"]) 5 (by decide) (by decide) (by decide) (by decide)
  exact ⟨h.1, h.2.1, h.2.2 "w2" (by decide) (by decide)⟩

/-! The masking rule of the status report. -/

theorem str_data_append (s t : String) : (s ++ t).data = s.data ++ t.data := rfl

/-- Every mask contains a `*` (short case) or a `.` (long case). -/
theorem maskKey_mem_special (x : String) :
    ('*' ∈ (maskKey x).data) ∨ ('.' ∈ (maskKey x).data) := by
  unfold maskKey
  by_cases hx : x.length ≤ 12
  · rw [if_pos hx]
    left
    decide
  · rw [if_neg hx]
    right
    rw [str_data_append, str_data_append]
    exact List.mem_append.mpr (Or.inl (List.mem_append.mpr (Or.inr (by decide))))

/-- A mask never equals a string free of `.` and `*`. -/
theorem maskKey_ne {x r : String} (h : ∀ ch ∈ r.data, ch ≠ '.' ∧ ch ≠ '*') :
    maskKey x ≠ r := by
  intro heq
  rcases maskKey_mem_special x with hm | hm
  · rw [heq] at hm
    exact (h '*' hm).2 rfl
  · rw [heq] at hm
    exact (h '.' hm).1 rfl

/-- Counterexample for C9: the credential `"***"` is its own mask, so on the
fresh pool `["***", "aa", "bb"]` a `keyStats` entry equals a raw input
credential string. -/
theorem C9_cex_unmasked_credential :
    ¬ (∀ mk1 ∈ (getStatus (freshState ["***", "aa", "bb"]) 0).1.keyStats.map
        KeyStat.key, ∀ raw ∈ ["***", "aa", "bb"], mk1 ≠ raw) := by
  decide

/-- Amended claim C9: on a fresh pool of 3 credentials none of which contains
the characters `.` or `*`, `getStatus` reports `totalKeys = 3`,
`availableKeys = 3`, `blockedKeys = 0`, its `keyStats` keys are the masks of
the credentials, and every reported key differs from every raw credential
string (degenerate credentials that equal their own mask, such as `"***"`,
are the only exception in the code). -/
theorem C9_status_masking :
    ∀ (a b c : String) (now : Nat),
      (∀ ch ∈ a.data, ch ≠ '.' ∧ ch ≠ '*') →
      (∀ ch ∈ b.data, ch ≠ '.' ∧ ch ≠ '*') →
      (∀ ch ∈ c.data, ch ≠ '.' ∧ ch ≠ '*') →
      (getStatus (freshState [a, b, c]) now).1.totalKeys = 3 ∧
      (getStatus (freshState [a, b, c]) now).1.availableKeys = 3 ∧
      (getStatus (freshState [a, b, c]) now).1.blockedKeys = 0 ∧
      (getStatus (freshState [a, b, c]) now).1.keyStats.map KeyStat.key =
        [maskKey a, maskKey b, maskKey c] ∧
      (∀ mk1 ∈ (getStatus (freshState [a, b, c]) now).1.keyStats.map KeyStat.key,
        ∀ raw ∈ [a, b, c], mk1 ≠ raw) := by
  intro a b c now ha hb hc
  have hst := availStable_fresh [a, b, c] now
  have heq := getAvailableKeys_stable hst
  have hlist := availList_fresh [a, b, c] now
  have hmain : (getStatus (freshState [a, b, c]) now).1 =
      { totalKeys := 3, availableKeys := 3, blockedKeys := 0
        keyStats := [a, b, c].map (fun k =>
          { key := maskKey k, usageCount := 0, lastUsed := 0, isBlocked := false
            errorCount := 0 }) } := by
    simp only [getStatus, heq, hlist]
    rfl
  have h4 : (getStatus (freshState [a, b, c]) now).1.keyStats.map KeyStat.key =
      [maskKey a, maskKey b, maskKey c] := by
    rw [hmain]
    simp
  refine ⟨by rw [hmain], by rw [hmain], by rw [hmain], h4, ?_⟩
  intro mk1 hmk raw hraw
  rw [h4] at hmk
  simp only [List.mem_cons, List.not_mem_nil, or_false] at hmk hraw
  rcases hmk with rfl | rfl | rfl <;> rcases hraw with rfl | rfl | rfl <;>
    first
      | exact maskKey_ne ha
      | exact maskKey_ne hb
      | exact maskKey_ne hc

/-- Witness for C9: the amended statement at three dot-free, star-free
credentials, with the masking conjunct instantiated at the first key. -/
theorem C9_status_masking_witness :
    (getStatus (freshState ["AIzaSyExampleKey123", "AIzaSyFoo", "AIzaSyBarXYZ"])
        0).1.totalKeys = 3 ∧
    (getStatus (freshState ["AIzaSyExampleKey123", "AIzaSyFoo", "AIzaSyBarXYZ"])
        0).1.availableKeys = 3 ∧
    (getStatus (freshState ["AIzaSyExampleKey123", "AIzaSyFoo", "AIzaSyBarXYZ"])
        0).1.blockedKeys = 0 ∧
    (getStatus (freshState ["AIzaSyExampleKey123", "AIzaSyFoo", "AIzaSyBarXYZ"])
        0).1.keyStats.map KeyStat.key =
      [maskKey "AIzaSyExampleKey123", maskKey "AIzaSyFoo", maskKey "AIzaSyBarXYZ"] ∧
    maskKey "AIzaSyExampleKey123" ≠ "AIzaSyExampleKey123" := by
  have h := C9_status_masking "AIzaSyExampleKey123" "AIzaSyFoo" "AIzaSyBarXYZ" 0
    (by decide) (by decide) (by decide)
  exact ⟨h.1, h.2.1, h.2.2.1, h.2.2.2.1,
    h.2.2.2.2 (maskKey "AIzaSyExampleKey123") (by decide) "AIzaSyExampleKey123"
      (by decide)⟩

end GKM
